import Mathlib

/-!
Verification of `iconfetcher.go` from the jujusvg repository.

The file shallowly embeds the two icon fetchers (`LinkFetcher` and
`HTTPFetcher`) and the helper `escapeString` / `fetchIcon`.  External
collaborators (the charm reference parser from `gopkg.in/juju/charm.v5`,
the HTTP client, and the bounded parallel runner from
`github.com/juju/utils/parallel`) are modelled as parameters or, where the
spec fixes their contract, as explicit definitions noted in their doc
comments.  Byte slices are modelled as `String`, Go maps over unique keys
as association lists, and the nondeterministic iteration order of the
`b.Services` Go map as the order of a list.
-/

deriving instance DecidableEq for Except

namespace Jujusvg

/-- Modelled collaborator: a parsed charm reference (`charm.Reference` from
gopkg.in/juju/charm.v5, not part of this repository).  `path` is the value
of its `Path()` method, the only observation `iconfetcher.go` makes of it
besides handing the whole reference to the `IconURL` collaborator; `rest`
stands for the remaining fields (schema, user, series, revision, ...) that
`Path()` may not expose but `IconURL` can still see, so that two references
with equal paths need not be equal. -/
structure Reference where
  path : String
  rest : String
deriving DecidableEq, Repr

/-- Modelled collaborator: the slice of `charm.ServiceSpec` data used by
the fetchers — only the `Charm` field (the raw charm reference string) is
read. -/
structure ServiceSpec where
  Charm : String
deriving DecidableEq, Repr

/-- Modelled collaborator: `charm.BundleData`, reduced to the part the
fetchers traverse.  `Services` is a Go map; its nondeterministic iteration
order is modelled by the order of this list. -/
structure BundleData where
  Services : List ServiceSpec
deriving DecidableEq, Repr

/-- Modelled collaborator: `charm.ParseReference`, a function from raw
reference strings to either a parse error message or a parsed reference. -/
abbrev ParseFn := String → Except String Reference

/-- The message of the error built by
`errgo.Notef(err, "cannot parse charm %q", serviceData.Charm)`
(src/iconfetcher.go lines 41 and 100): `errgo` renders a wrapped error as
`message: cause`, and `%q` puts the raw string in double quotes. -/
def parseErrMsg (raw cause : String) : String :=
  "cannot parse charm \"" ++ raw ++ "\": " ++ cause

/-- Modelled collaborator: the escaping table of `xml.EscapeText` from
github.com/juju/xml (the fork of encoding/xml used at line 60), restricted
to valid XML characters: the eight characters below are replaced by
entities and every other character is kept. -/
def escapeChar (c : Char) : String :=
  if c = '"' then "&#34;"
  else if c = Char.ofNat 39 then "&#39;"
  else if c = '&' then "&amp;"
  else if c = '<' then "&lt;"
  else if c = '>' then "&gt;"
  else if c = '\t' then "&#x9;"
  else if c = '\n' then "&#xA;"
  else if c = '\r' then "&#xD;"
  else String.singleton c

/-- `escapeString` (src/iconfetcher.go lines 58-62): wraps `xml.EscapeText`
to act on strings; character-wise application of the escaping table. -/
def escapeString (s : String) : String :=
  String.join (s.data.map escapeChar)

/-- The exact SVG image tag produced by the `fmt.Sprintf` at
src/iconfetcher.go lines 48-51 (a Go raw string literal: the newlines and
tabs are part of the output), applied to the already-escaped URL. -/
def svgIconTag (escapedURL : String) : String :=
  "\n\t\t\t\t<svg xmlns:xlink=\"http://www.w3.org/1999/xlink\">\n\t\t\t\t\t<image width=\"96\" height=\"96\" xlink:href=\"" ++ escapedURL ++ "\" />\n\t\t\t\t</svg>"

/-- `LinkFetcher` (src/iconfetcher.go lines 25-28). -/
structure LinkFetcher where
  IconURL : Reference → String

/-- The loop of `LinkFetcher.FetchIcons` (src/iconfetcher.go lines 38-53):
scans the services in order, fails on the first parse error, and for each
not-yet-seen path appends one `(path, svg tag)` entry to the icons map
(modelled as an association list; its keys stay unique so it denotes the
same Go map). -/
def linkLoop (l : LinkFetcher) (parse : ParseFn) :
    List ServiceSpec → List String → List (String × String) →
    Except String (List (String × String))
  | [], _, icons => .ok icons
  | s :: rest, alreadyFetched, icons =>
    match parse s.Charm with
    | .error e => .error (parseErrMsg s.Charm e)
    | .ok charmId =>
      if charmId.path ∈ alreadyFetched then
        linkLoop l parse rest alreadyFetched icons
      else
        linkLoop l parse rest (charmId.path :: alreadyFetched)
          (icons ++ [(charmId.path, svgIconTag (escapeString (l.IconURL charmId)))])

/-- `LinkFetcher.FetchIcons` (src/iconfetcher.go lines 32-55). -/
def LinkFetcher.FetchIcons (l : LinkFetcher) (parse : ParseFn) (b : BundleData) :
    Except String (List (String × String)) :=
  linkLoop l parse b.Services [] []

/-- Modelled collaborator: an HTTP response as `fetchIcon` observes it —
the numeric status code, the status line text (`resp.Status`), and the
outcome of reading the body to the end (`ioutil.ReadAll`), which can fail
after a successful status. -/
structure HTTPResponse where
  statusCode : Nat
  status : String
  body : Except String String

/-- Modelled collaborator: an `*http.Client`, observed only through `Get`:
a URL either yields a transport-level error message or a response. -/
abbrev HTTPClient := String → Except String HTTPResponse

/-- `HTTPFetcher` (src/iconfetcher.go lines 68-80). -/
structure HTTPFetcher where
  Concurrency : Int
  IconURL : Reference → String
  Client : Option HTTPClient

/-- The concurrency value actually used by `FetchIcons`
(src/iconfetcher.go lines 89-92): `h.Concurrency`, or 10 when that is not
positive. -/
def HTTPFetcher.effectiveConcurrency (h : HTTPFetcher) : Int :=
  if h.Concurrency ≤ 0 then 10 else h.Concurrency

/-- `HTTPFetcher.fetchIcon` (src/iconfetcher.go lines 125-139).  Error
messages follow `errgo`: `Notef` renders as `formatted message: cause`,
`Newf` as the formatted message alone.  Note the status test is
`resp.StatusCode != http.StatusOK`, i.e. anything other than 200 fails. -/
def HTTPFetcher.fetchIcon (h : HTTPFetcher) (url : String) (client : HTTPClient) :
    Except String String :=
  match client url with
  | .error e => .error ("HTTP error fetching " ++ url ++ ": " ++ e ++ ": " ++ e)
  | .ok resp =>
    if resp.statusCode ≠ 200 then
      .error ("cannot retrieve icon from " ++ url ++ ": " ++ resp.status)
    else
      match resp.body with
      | .error e => .error ("could not read icon data from url " ++ url ++ ": " ++ e)
      | .ok body => .ok body

/-- One task handed to `run.Do` (src/iconfetcher.go lines 107-116): the
closure captures the deduplicated `path` and the parsed `charmId`. -/
structure IconTask where
  path : String
  charmId : Reference
deriving DecidableEq, Repr

/-- The sequential scan of `HTTPFetcher.FetchIcons`
(src/iconfetcher.go lines 97-117): walks the services in order, and for
each one either stops at a parse error (returning the tasks already handed
to `run.Do` before the error, and the error message), skips an already
seen path, or appends one task.  Returns the submitted tasks and the parse
error, if any. -/
def httpScan (parse : ParseFn) :
    List ServiceSpec → List String → List IconTask →
    List IconTask × Option String
  | [], _, acc => (acc, none)
  | s :: rest, alreadyFetched, acc =>
    match parse s.Charm with
    | .error e => (acc, some (parseErrMsg s.Charm e))
    | .ok charmId =>
      if charmId.path ∈ alreadyFetched then
        httpScan parse rest alreadyFetched acc
      else
        httpScan parse rest (charmId.path :: alreadyFetched)
          (acc ++ [⟨charmId.path, charmId⟩])

/-- The body of one submitted task (src/iconfetcher.go lines 107-116):
fetch the icon for the captured reference and, on success, produce the
`(path, icon)` entry written into the shared map under the mutex. -/
def runTask (h : HTTPFetcher) (client : HTTPClient) (t : IconTask) :
    Except String (String × String) :=
  match h.fetchIcon (h.IconURL t.charmId) client with
  | .error e => .error e
  | .ok icon => .ok (t.path, icon)

/-- Modelled from the spec: the Bounded Parallel Runner
(github.com/juju/utils/parallel, not in src/).  Per §4.4 of the spec,
`Wait` reports a single failure if any task failed and none otherwise;
which failure is reported is schedule-dependent, and this deterministic
model reports the one of the first failing task in submission order.  On
all-success it yields the map entries of all tasks (here in submission
order; the Go map does not observe insertion order). -/
def runAll (h : HTTPFetcher) (client : HTTPClient) :
    List IconTask → Except String (List (String × String))
  | [] => .ok []
  | t :: ts =>
    match runTask h client t with
    | .error e => .error e
    | .ok pr =>
      match runAll h client ts with
      | .error e => .error e
      | .ok m => .ok (pr :: m)

/-- The observable outcome of one `HTTPFetcher.FetchIcons` call: the
client and concurrency values the call used, the tasks handed to
`run.Do`, the parse error that stopped the scan (if any), the returned
value, and the receiver as it stands when the method returns. -/
structure HTTPFetchRun where
  clientUsed : HTTPClient
  concurrencyUsed : Int
  submitted : List IconTask
  parseError : Option String
  result : Except String (List (String × String))
  receiverAfter : HTTPFetcher

/-- Instrumented semantics of `HTTPFetcher.FetchIcons`
(src/iconfetcher.go lines 84-122): defaults are applied to the call-local
`client` and `concurrency` variables (lines 85-92), the scan submits tasks
as it walks the services (lines 97-117), a parse error returns
`(nil, err)` at once (lines 99-101), otherwise the runner's verdict
decides between the error from `Wait` and the completed map
(lines 118-121).  `receiverAfter` is the receiver at return: the method
body contains no assignment to any field of `h`. -/
def HTTPFetcher.FetchIconsRun (h : HTTPFetcher) (defaultClient : HTTPClient)
    (parse : ParseFn) (b : BundleData) : HTTPFetchRun :=
  let client : HTTPClient :=
    match h.Client with
    | none => defaultClient
    | some c => c
  let scan := httpScan parse b.Services [] []
  { clientUsed := client
    concurrencyUsed := h.effectiveConcurrency
    submitted := scan.1
    parseError := scan.2
    result :=
      match scan.2 with
      | some e => .error e
      | none => runAll h client scan.1
    receiverAfter := h }

/-- `HTTPFetcher.FetchIcons` proper: the value returned to the caller. -/
def HTTPFetcher.FetchIcons (h : HTTPFetcher) (defaultClient : HTTPClient)
    (parse : ParseFn) (b : BundleData) : Except String (List (String × String)) :=
  (h.FetchIconsRun defaultClient parse b).result

/-- The parsed reference of the first service in the list whose parse
succeeds with the given path (the occurrence whose data wins under
deduplication). -/
def firstRefWithPath (parse : ParseFn) : List ServiceSpec → String → Option Reference
  | [], _ => none
  | s :: rest, p =>
    match parse s.Charm with
    | .ok ref => if ref.path = p then some ref else firstRefWithPath parse rest p
    | .error _ => firstRefWithPath parse rest p

/-- Every service's charm reference in the list parses successfully. -/
def allParse (parse : ParseFn) (svcs : List ServiceSpec) : Prop :=
  ∀ s ∈ svcs, ∃ ref, parse s.Charm = .ok ref

/-- The keys of an icons map modelled as an association list. -/
def mapKeys (m : List (String × String)) : List String :=
  m.map Prod.fst

/-- A state of the concurrent execution of one `HTTPFetcher.FetchIcons`
call: the services the main loop has not yet scanned, the
`alreadyFetched` paths, the tasks currently running (holding one of the
runner's slots, hence performing their fetch), the tasks that have
finished, and the parse error once the scan has aborted. -/
structure RunState where
  pending : List ServiceSpec
  fetched : List String
  running : List IconTask
  finished : List IconTask
  parseErr : Option String
deriving DecidableEq, Repr

/-- The initial state of a `FetchIcons` call on bundle `b`. -/
def initRun (b : BundleData) : RunState :=
  ⟨b.Services, [], [], [], none⟩

/-- Modelled from the spec: small-step interleaving of the main loop of
`HTTPFetcher.FetchIcons` (src/iconfetcher.go lines 97-117) with the
Bounded Parallel Runner (github.com/juju/utils/parallel, not in src/;
contract in spec §4.4): `run.Do` may start a submitted task at once but
blocks while `cap` tasks hold slots, so the scan only advances past a new
unique path when a slot is free; a parse error stops the scan (the method
returns), while tasks already started keep running to completion (no
cancellation). -/
inductive RunStep (parse : ParseFn) (cap : Nat) : RunState → RunState → Prop
  | scanDup (s : ServiceSpec) (rest : List ServiceSpec) (fetched : List String)
      (running finished : List IconTask) (ref : Reference)
      (hp : parse s.Charm = .ok ref) (hmem : ref.path ∈ fetched) :
      RunStep parse cap ⟨s :: rest, fetched, running, finished, none⟩
        ⟨rest, fetched, running, finished, none⟩
  | scanNew (s : ServiceSpec) (rest : List ServiceSpec) (fetched : List String)
      (running finished : List IconTask) (ref : Reference)
      (hp : parse s.Charm = .ok ref) (hmem : ref.path ∉ fetched)
      (hcap : running.length < cap) :
      RunStep parse cap ⟨s :: rest, fetched, running, finished, none⟩
        ⟨rest, ref.path :: fetched, running ++ [⟨ref.path, ref⟩], finished, none⟩
  | scanErr (s : ServiceSpec) (rest : List ServiceSpec) (fetched : List String)
      (running finished : List IconTask) (c : String)
      (hp : parse s.Charm = .error c) :
      RunStep parse cap ⟨s :: rest, fetched, running, finished, none⟩
        ⟨rest, fetched, running, finished, some (parseErrMsg s.Charm c)⟩
  | taskDone (pending : List ServiceSpec) (fetched : List String)
      (l₁ l₂ : List IconTask) (t : IconTask) (finished : List IconTask)
      (e : Option String) :
      RunStep parse cap ⟨pending, fetched, l₁ ++ t :: l₂, finished, e⟩
        ⟨pending, fetched, l₁ ++ l₂, t :: finished, e⟩

/-- Reachability under the interleaving semantics. -/
abbrev Reaches (parse : ParseFn) (cap : Nat) : RunState → RunState → Prop :=
  Relation.ReflTransGen (RunStep parse cap)

/-- Concrete instantiation of the `charm.ParseReference` collaborator used
by witnesses and counterexamples: the empty string is malformed, a
`cs:`-prefixed reference keeps the remainder as its path and records the
schema, anything else is its own path. -/
def charmParse (raw : String) : Except String Reference :=
  if raw = "" then .error "charm URL has invalid form"
  else
    match raw.data with
    | 'c' :: 's' :: ':' :: rest => .ok ⟨String.mk rest, "cs"⟩
    | _ => .ok ⟨raw, ""⟩

/-- Concrete `IconURL` collaborator for witnesses. -/
def sampleIconURL (r : Reference) : String :=
  "https://example.com/" ++ r.path ++ "/icon.svg"

/-- Concrete client for witnesses: every URL yields status 200 and a
readable body. -/
def okClient : HTTPClient :=
  fun url => .ok ⟨200, "200 OK", .ok ("icon:" ++ url)⟩

/-- Concrete client for witnesses: every URL yields status 404. -/
def notFoundClient : HTTPClient :=
  fun _ => .ok ⟨404, "404 Not Found", .ok ""⟩

/-- Concrete client for counterexamples: every URL yields status 201
(a 2xx success status that is not 200) with a readable body. -/
def createdClient : HTTPClient :=
  fun _ => .ok ⟨201, "201 Created", .ok "icon"⟩

/-- Concrete `HTTPFetcher` for witnesses: no explicit concurrency, no
explicit client. -/
def hSample : HTTPFetcher :=
  ⟨0, sampleIconURL, none⟩

/-- Concrete `LinkFetcher` for witnesses. -/
def lSample : LinkFetcher :=
  ⟨sampleIconURL⟩

/-! Helper lemmas about association-list lookup, the scan, and the runner. -/

theorem lookup_cons (k v : String) (m : List (String × String)) (p : String) :
    ((k, v) :: m).lookup p = if p = k then some v else m.lookup p := by
  by_cases h : p = k
  · simp [List.lookup, h]
  · simp [List.lookup, h, beq_eq_false_iff_ne.mpr h]

theorem lookup_append (xs ys : List (String × String)) (p : String) :
    (xs ++ ys).lookup p =
      match xs.lookup p with
      | some v => some v
      | none => ys.lookup p := by
  induction xs with
  | nil => rfl
  | cons kv xs ih =>
    obtain ⟨k, v⟩ := kv
    by_cases h : p = k <;> simp [lookup_cons, h, ih]

theorem lookup_eq_none_of_not_mem_keys (m : List (String × String)) (p : String)
    (hp : p ∉ mapKeys m) : m.lookup p = none := by
  induction m with
  | nil => rfl
  | cons kv m ih =>
    obtain ⟨k, v⟩ := kv
    simp [mapKeys] at hp
    simp [lookup_cons, hp.1, ih (by simp [mapKeys, hp.2])]

/-- The `result` field of an instrumented call, expressed through its other
fields. -/
theorem fetchIconsRun_result (h : HTTPFetcher) (d : HTTPClient) (parse : ParseFn)
    (b : BundleData) :
    (h.FetchIconsRun d parse b).result =
      match (h.FetchIconsRun d parse b).parseError with
      | some e => .error e
      | none => runAll h (h.FetchIconsRun d parse b).clientUsed
          (h.FetchIconsRun d parse b).submitted := rfl

/-- When every submitted task's fetch succeeds, the runner completes with
one map entry per task, keyed by the task's path. -/
theorem runAll_ok (h : HTTPFetcher) (client : HTTPClient) (tasks : List IconTask)
    (hall : ∀ t ∈ tasks, ∃ icon, h.fetchIcon (h.IconURL t.charmId) client = .ok icon) :
    ∃ m, runAll h client tasks = .ok m ∧ mapKeys m = tasks.map IconTask.path := by
  induction tasks with
  | nil => exact ⟨[], rfl, rfl⟩
  | cons t ts ih =>
    obtain ⟨icon, hicon⟩ := hall t (by simp)
    obtain ⟨m, hm, hkeys⟩ := ih (fun u hu => hall u (by simp [hu]))
    refine ⟨(t.path, icon) :: m, ?_, ?_⟩
    · simp [runAll, runTask, hicon, hm]
    · simp [mapKeys] at hkeys ⊢
      exact hkeys

/-- When some submitted task fails, the runner reports an error. -/
theorem runAll_error (h : HTTPFetcher) (client : HTTPClient) (tasks : List IconTask)
    (hfail : ∃ t ∈ tasks, ∃ e, runTask h client t = .error e) :
    ∃ e, runAll h client tasks = .error e := by
  induction tasks with
  | nil => simp at hfail
  | cons t ts ih =>
    cases ht : runTask h client t with
    | error e => exact ⟨e, by simp [runAll, ht]⟩
    | ok pr =>
      obtain ⟨u, hu, e, he⟩ := hfail
      rcases List.mem_cons.mp hu with rfl | hu
      · rw [ht] at he; cases he
      · obtain ⟨e', he'⟩ := ih ⟨u, hu, e, he⟩
        exact ⟨e', by simp [runAll, ht, he']⟩

/-- A step of the interleaving semantics never pushes the number of
running tasks above the cap. -/
theorem runStep_cap (parse : ParseFn) (cap : Nat) (s t : RunState)
    (hstep : RunStep parse cap s t) (hs : s.running.length ≤ cap) :
    t.running.length ≤ cap := by
  cases hstep with
  | scanDup => exact hs
  | scanNew s rest fetched running finished ref hp hmem hcap => simpa using hcap
  | scanErr => exact hs
  | taskDone pending fetched l₁ l₂ u finished e =>
    simp at hs ⊢
    omega

/-! The claims. -/

/-- Claim C8: on a bundle with no services, both `LinkFetcher.FetchIcons`
and `HTTPFetcher.FetchIcons` return the empty map and no error, and no
fetch task is submitted (zero network calls). -/
theorem fetchIcons_empty (l : LinkFetcher) (h : HTTPFetcher) (d : HTTPClient)
    (parse : ParseFn) :
    l.FetchIcons parse ⟨[]⟩ = .ok [] ∧
    h.FetchIcons d parse ⟨[]⟩ = .ok [] ∧
    (h.FetchIconsRun d parse ⟨[]⟩).submitted = [] :=
  ⟨rfl, rfl, rfl⟩

/-- Claim C5: `FetchIcons` runs with concurrency 10 when the fetcher's
`Concurrency` field is not positive, and with the field's value when it is
positive. -/
theorem fetchIcons_defaultConcurrency (h : HTTPFetcher) (d : HTTPClient)
    (parse : ParseFn) (b : BundleData) :
    (h.Concurrency ≤ 0 → (h.FetchIconsRun d parse b).concurrencyUsed = 10) ∧
    (0 < h.Concurrency → (h.FetchIconsRun d parse b).concurrencyUsed = h.Concurrency) := by
  constructor
  · intro hle
    simp [HTTPFetcher.FetchIconsRun, HTTPFetcher.effectiveConcurrency, hle]
  · intro hpos
    simp [HTTPFetcher.FetchIconsRun, HTTPFetcher.effectiveConcurrency, not_le.mpr hpos]

/-- Witness for C5: a fetcher with `Concurrency = 0` uses 10; one with
`Concurrency = 3` uses 3. -/
theorem fetchIcons_defaultConcurrency_witness :
    (hSample.FetchIconsRun okClient charmParse ⟨[]⟩).concurrencyUsed = 10 ∧
    ((⟨3, sampleIconURL, none⟩ : HTTPFetcher).FetchIconsRun okClient charmParse
      ⟨[]⟩).concurrencyUsed = 3 :=
  ⟨(fetchIcons_defaultConcurrency hSample okClient charmParse ⟨[]⟩).1 (by decide),
    (fetchIcons_defaultConcurrency ⟨3, sampleIconURL, none⟩ okClient charmParse ⟨[]⟩).2
      (by decide)⟩

/-- Claim C10: `HTTPFetcher.FetchIcons` leaves its receiver unchanged —
the defaults for the client and the concurrency are applied to call-local
values and never written back into the struct's fields. -/
theorem fetchIcons_receiver_unchanged (h : HTTPFetcher) (d : HTTPClient)
    (parse : ParseFn) (b : BundleData) :
    (h.FetchIconsRun d parse b).receiverAfter = h ∧
    (h.Client = none → (h.FetchIconsRun d parse b).clientUsed = d ∧
      (h.FetchIconsRun d parse b).receiverAfter.Client = none) ∧
    (∀ c, h.Client = some c → (h.FetchIconsRun d parse b).clientUsed = c) ∧
    (h.Concurrency ≤ 0 → (h.FetchIconsRun d parse b).concurrencyUsed = 10 ∧
      (h.FetchIconsRun d parse b).receiverAfter.Concurrency = h.Concurrency) := by
  refine ⟨rfl, ?_, ?_, ?_⟩
  · intro hc
    exact ⟨by simp [HTTPFetcher.FetchIconsRun, hc], hc⟩
  · intro c hc
    simp [HTTPFetcher.FetchIconsRun, hc]
  · intro hle
    exact ⟨by simp [HTTPFetcher.FetchIconsRun, HTTPFetcher.effectiveConcurrency, hle], rfl⟩

/-- Witness for C10 at a concrete call: the receiver comes back as built,
with the default client and concurrency only in the call-local values. -/
theorem fetchIcons_receiver_unchanged_witness :
    (hSample.FetchIconsRun okClient charmParse ⟨[⟨"cs:wordpress"⟩]⟩).receiverAfter = hSample ∧
    (hSample.FetchIconsRun okClient charmParse ⟨[⟨"cs:wordpress"⟩]⟩).clientUsed = okClient ∧
    (hSample.FetchIconsRun okClient charmParse ⟨[⟨"cs:wordpress"⟩]⟩).concurrencyUsed = 10 :=
  ⟨(fetchIcons_receiver_unchanged hSample okClient charmParse ⟨[⟨"cs:wordpress"⟩]⟩).1,
    ((fetchIcons_receiver_unchanged hSample okClient charmParse ⟨[⟨"cs:wordpress"⟩]⟩).2.1
      rfl).1,
    ((fetchIcons_receiver_unchanged hSample okClient charmParse ⟨[⟨"cs:wordpress"⟩]⟩).2.2.2
      (by decide)).1⟩

/-- Claim C4: in every state reachable during a `FetchIcons` call, the
number of tasks concurrently holding a runner slot (hence performing
network I/O) never exceeds the effective concurrency cap. -/
theorem fetchIcons_concurrencyCap (h : HTTPFetcher) (parse : ParseFn) (b : BundleData)
    (s : RunState)
    (hr : Reaches parse h.effectiveConcurrency.toNat (initRun b) s) :
    s.running.length ≤ h.effectiveConcurrency.toNat := by
  induction hr with
  | refl => simp [initRun]
  | tail _ hstep ih => exact runStep_cap _ _ _ _ hstep ih

/-- Witness for C4: the initial state of a concrete call satisfies the
bound. -/
theorem fetchIcons_concurrencyCap_witness :
    (initRun ⟨[⟨"cs:wordpress"⟩]⟩).running.length ≤ hSample.effectiveConcurrency.toNat :=
  fetchIcons_concurrencyCap hSample charmParse ⟨[⟨"cs:wordpress"⟩]⟩
    (initRun ⟨[⟨"cs:wordpress"⟩]⟩) Relation.ReflTransGen.refl

/-- Claim C3: when the scan finds no parse error but some submitted fetch
task fails, `FetchIcons` returns the single error reported by the runner's
`Wait` and no result map — the partially built map is discarded. -/
theorem fetchIcons_taskFailure_noMap (h : HTTPFetcher) (d : HTTPClient)
    (parse : ParseFn) (b : BundleData)
    (hscan : (h.FetchIconsRun d parse b).parseError = none)
    (hfail : ∃ t ∈ (h.FetchIconsRun d parse b).submitted, ∃ e,
      runTask h (h.FetchIconsRun d parse b).clientUsed t = .error e) :
    (∃ e, runAll h (h.FetchIconsRun d parse b).clientUsed
        (h.FetchIconsRun d parse b).submitted = .error e ∧
      (h.FetchIconsRun d parse b).result = .error e) ∧
    ∀ m, (h.FetchIconsRun d parse b).result ≠ .ok m := by
  obtain ⟨e, he⟩ := runAll_error h (h.FetchIconsRun d parse b).clientUsed
    (h.FetchIconsRun d parse b).submitted hfail
  have hres : (h.FetchIconsRun d parse b).result = .error e := by
    rw [fetchIconsRun_result, hscan]
    exact he
  refine ⟨⟨e, he, hres⟩, fun m hm => ?_⟩
  rw [hres] at hm
  cases hm

/-- Witness for C3: a single 404 fetch makes the concrete call return no
map. -/
theorem fetchIcons_taskFailure_noMap_witness :
    (hSample.FetchIconsRun notFoundClient charmParse ⟨[⟨"cs:wordpress"⟩]⟩).result ≠
      .ok [] :=
  (fetchIcons_taskFailure_noMap hSample notFoundClient charmParse ⟨[⟨"cs:wordpress"⟩]⟩
    (by decide)
    ⟨⟨"wordpress", ⟨"wordpress", "cs"⟩⟩, by decide,
      "cannot retrieve icon from https://example.com/wordpress/icon.svg: 404 Not Found",
      by decide⟩).2 []

/-- The scan over a prefix of well-parsed services followed by a malformed
one stops at the malformed entry, keeping the tasks submitted for the
prefix. -/
theorem httpScan_firstError (parse : ParseFn) (pre : List ServiceSpec)
    (bad : ServiceSpec) (post : List ServiceSpec) (c : String)
    (hbad : parse bad.Charm = .error c) :
    ∀ (fetched : List String) (acc : List IconTask), allParse parse pre →
    httpScan parse (pre ++ bad :: post) fetched acc =
      ((httpScan parse pre fetched acc).1, some (parseErrMsg bad.Charm c)) := by
  induction pre with
  | nil =>
    intro fetched acc _
    simp [httpScan, hbad]
  | cons s rest ih =>
    intro fetched acc hall
    obtain ⟨ref, href⟩ := hall s (by simp)
    have hall' : allParse parse rest := fun t ht => hall t (by simp [ht])
    by_cases hmem : ref.path ∈ fetched <;>
      simp [httpScan, href, hmem, ih _ _ hall']

/-- Claim C2 (amended): a malformed reference after a prefix of valid ones
makes `FetchIcons` return the descriptive parse error naming the raw
string and no partial results, and nothing is submitted at or past the
malformed entry — but the tasks for the valid prefix have already been
handed to the runner during the scan, so fetches for them may already be
in flight. -/
theorem fetchIcons_parseError_failFast_amended (h : HTTPFetcher) (d : HTTPClient)
    (parse : ParseFn) (pre post : List ServiceSpec) (bad : ServiceSpec) (c : String)
    (hall : allParse parse pre) (hbad : parse bad.Charm = .error c) :
    (h.FetchIconsRun d parse ⟨pre ++ bad :: post⟩).result =
      .error (parseErrMsg bad.Charm c) ∧
    (∀ m, (h.FetchIconsRun d parse ⟨pre ++ bad :: post⟩).result ≠ .ok m) ∧
    (h.FetchIconsRun d parse ⟨pre ++ bad :: post⟩).submitted =
      (httpScan parse pre [] []).1 := by
  have hscan := httpScan_firstError parse pre bad post c hbad [] [] hall
  have hperr : (h.FetchIconsRun d parse ⟨pre ++ bad :: post⟩).parseError =
      some (parseErrMsg bad.Charm c) := by
    show (httpScan parse (pre ++ bad :: post) [] []).2 = _
    rw [hscan]
  have hsub : (h.FetchIconsRun d parse ⟨pre ++ bad :: post⟩).submitted =
      (httpScan parse pre [] []).1 := by
    show (httpScan parse (pre ++ bad :: post) [] []).1 = _
    rw [hscan]
  have hres : (h.FetchIconsRun d parse ⟨pre ++ bad :: post⟩).result =
      .error (parseErrMsg bad.Charm c) := by
    rw [fetchIconsRun_result, hperr]
  refine ⟨hres, fun m hm => ?_, hsub⟩
  rw [hres] at hm
  cases hm

/-- Witness for the amended C2 at a concrete bundle. -/
theorem fetchIcons_parseError_failFast_amended_witness :
    (hSample.FetchIconsRun okClient charmParse ⟨[⟨"cs:wordpress"⟩, ⟨""⟩]⟩).result =
      .error (parseErrMsg "" "charm URL has invalid form") :=
  (fetchIcons_parseError_failFast_amended hSample okClient charmParse [⟨"cs:wordpress"⟩]
    [] ⟨""⟩ "charm URL has invalid form"
    (fun s hs => by
      rw [List.mem_singleton] at hs
      subst hs
      exact ⟨⟨"wordpress", "cs"⟩, by decide⟩)
    (by decide)).1

/-- Claim C2 counterexample: on the bundle `["cs:wordpress", ""]` the call
returns the parse error for `""`, yet a fetch task for `cs:wordpress` was
submitted during the scan, and the interleaving semantics reaches a state
in which that task's network fetch has already completed when the parse
error aborts the scan — the claim's "zero fetch tasks / no fetch attempt
starts" is false. -/
theorem fetchIcons_parseError_cex :
    (hSample.FetchIconsRun okClient charmParse ⟨[⟨"cs:wordpress"⟩, ⟨""⟩]⟩).result =
      .error (parseErrMsg "" "charm URL has invalid form") ∧
    (hSample.FetchIconsRun okClient charmParse ⟨[⟨"cs:wordpress"⟩, ⟨""⟩]⟩).submitted =
      [⟨"wordpress", ⟨"wordpress", "cs"⟩⟩] ∧
    Reaches charmParse hSample.effectiveConcurrency.toNat
      (initRun ⟨[⟨"cs:wordpress"⟩, ⟨""⟩]⟩)
      ⟨[], ["wordpress"], [], [⟨"wordpress", ⟨"wordpress", "cs"⟩⟩],
        some (parseErrMsg "" "charm URL has invalid form")⟩ := by
  refine ⟨by decide, by decide, ?_⟩
  have h1 : RunStep charmParse hSample.effectiveConcurrency.toNat
      (initRun ⟨[⟨"cs:wordpress"⟩, ⟨""⟩]⟩)
      ⟨[⟨""⟩], ["wordpress"], [⟨"wordpress", ⟨"wordpress", "cs"⟩⟩], [], none⟩ :=
    RunStep.scanNew ⟨"cs:wordpress"⟩ [⟨""⟩] [] [] [] ⟨"wordpress", "cs"⟩
      (by decide) (by decide) (by decide)
  have h2 : RunStep charmParse hSample.effectiveConcurrency.toNat
      ⟨[⟨""⟩], ["wordpress"], [⟨"wordpress", ⟨"wordpress", "cs"⟩⟩], [], none⟩
      ⟨[⟨""⟩], ["wordpress"], [], [⟨"wordpress", ⟨"wordpress", "cs"⟩⟩], none⟩ :=
    RunStep.taskDone [⟨""⟩] ["wordpress"] [] [] ⟨"wordpress", ⟨"wordpress", "cs"⟩⟩ [] none
  have h3 : RunStep charmParse hSample.effectiveConcurrency.toNat
      ⟨[⟨""⟩], ["wordpress"], [], [⟨"wordpress", ⟨"wordpress", "cs"⟩⟩], none⟩
      ⟨[], ["wordpress"], [], [⟨"wordpress", ⟨"wordpress", "cs"⟩⟩],
        some (parseErrMsg "" "charm URL has invalid form")⟩ :=
    RunStep.scanErr ⟨""⟩ [] ["wordpress"] [] [⟨"wordpress", ⟨"wordpress", "cs"⟩⟩]
      "charm URL has invalid form" (by decide)
  exact Relation.ReflTransGen.head h1 (Relation.ReflTransGen.head h2
    (Relation.ReflTransGen.single h3))

/-- Claim C6 counterexample: a transport-level success with status
201 Created (a 2xx status) and a readable body satisfies none of the
claim's three error conditions, yet `fetchIcon` returns an error instead
of the body — the code tests `StatusCode != 200`, not "non-2xx". -/
theorem fetchIcon_status2xx_cex :
    createdClient "u" = .ok ⟨201, "201 Created", .ok "icon"⟩ ∧
    200 ≤ 201 ∧ 201 < 300 ∧
    hSample.fetchIcon "u" createdClient =
      .error ("cannot retrieve icon from u: 201 Created") :=
  ⟨rfl, by decide, by decide, by decide⟩

/-- Claim C6 (amended): `fetchIcon` returns an error if and only if the
GET fails at transport level (wrapping the cause and naming the URL), the
response status is not 200 (an error naming the URL and status), or
reading the body fails after a 200 status; otherwise it returns the full
body. -/
theorem fetchIcon_error_cases_amended (h : HTTPFetcher) (client : HTTPClient)
    (url : String) :
    ((∃ e, h.fetchIcon url client = .error e) ↔
      (∃ e, client url = .error e) ∨
      (∃ resp, client url = .ok resp ∧ resp.statusCode ≠ 200) ∨
      (∃ resp e, client url = .ok resp ∧ resp.statusCode = 200 ∧
        resp.body = .error e)) ∧
    (∀ e, client url = .error e →
      h.fetchIcon url client =
        .error ("HTTP error fetching " ++ url ++ ": " ++ e ++ ": " ++ e)) ∧
    (∀ resp, client url = .ok resp → resp.statusCode ≠ 200 →
      h.fetchIcon url client =
        .error ("cannot retrieve icon from " ++ url ++ ": " ++ resp.status)) ∧
    (∀ resp e, client url = .ok resp → resp.statusCode = 200 → resp.body = .error e →
      h.fetchIcon url client =
        .error ("could not read icon data from url " ++ url ++ ": " ++ e)) ∧
    (∀ resp body, client url = .ok resp → resp.statusCode = 200 → resp.body = .ok body →
      h.fetchIcon url client = .ok body) := by
  refine ⟨?_, ?_, ?_, ?_, ?_⟩
  · constructor
    · intro ⟨e, he⟩
      cases hc : client url with
      | error e' => exact Or.inl ⟨e', rfl⟩
      | ok resp =>
        by_cases hs : resp.statusCode = 200
        · cases hb : resp.body with
          | error e' => exact Or.inr (Or.inr ⟨resp, e', rfl, hs, hb⟩)
          | ok body => simp [HTTPFetcher.fetchIcon, hc, hs, hb] at he
        · exact Or.inr (Or.inl ⟨resp, rfl, hs⟩)
    · intro hcase
      rcases hcase with ⟨e, he⟩ | ⟨resp, hresp, hs⟩ | ⟨resp, e, hresp, hs, hb⟩
      · exact ⟨"HTTP error fetching " ++ url ++ ": " ++ e ++ ": " ++ e,
          by simp [HTTPFetcher.fetchIcon, he]⟩
      · exact ⟨"cannot retrieve icon from " ++ url ++ ": " ++ resp.status,
          by simp [HTTPFetcher.fetchIcon, hresp, hs]⟩
      · exact ⟨"could not read icon data from url " ++ url ++ ": " ++ e,
          by simp [HTTPFetcher.fetchIcon, hresp, hs, hb]⟩
  · intro e he
    simp [HTTPFetcher.fetchIcon, he]
  · intro resp hresp hs
    simp [HTTPFetcher.fetchIcon, hresp, hs]
  · intro resp e hresp hs hb
    simp [HTTPFetcher.fetchIcon, hresp, hs, hb]
  · intro resp body hresp hs hb
    simp [HTTPFetcher.fetchIcon, hresp, hs, hb]

/-- Witness for the amended C6: a 200 response with readable body yields
exactly that body. -/
theorem fetchIcon_error_cases_amended_witness :
    hSample.fetchIcon "u" okClient = .ok ("icon:" ++ "u") :=
  (fetchIcon_error_cases_amended hSample okClient "u").2.2.2.2
    ⟨200, "200 OK", .ok ("icon:" ++ "u")⟩ ("icon:" ++ "u") rfl rfl rfl

/-- Specification of the scan on all-parseable input: no parse error, the
submitted tasks' paths are free of duplicates, and they extend the
accumulator's paths by exactly the parsed paths of the scanned services
that are new with respect to the accumulator. -/
theorem httpScan_spec (parse : ParseFn) (svcs : List ServiceSpec) :
    ∀ (fetched : List String) (acc : List IconTask), allParse parse svcs →
    (∀ p, p ∈ fetched ↔ p ∈ acc.map IconTask.path) →
    (acc.map IconTask.path).Nodup →
    (httpScan parse svcs fetched acc).2 = none ∧
    ((httpScan parse svcs fetched acc).1.map IconTask.path).Nodup ∧
    (∀ p, p ∈ (httpScan parse svcs fetched acc).1.map IconTask.path ↔
      p ∈ acc.map IconTask.path ∨
        ∃ s ∈ svcs, ∃ ref, parse s.Charm = .ok ref ∧ ref.path = p) := by
  induction svcs with
  | nil =>
    intro fetched acc _ _ hnd
    refine ⟨rfl, hnd, fun p => ?_⟩
    simp [httpScan]
  | cons s rest ih =>
    intro fetched acc hall hinv hnd
    obtain ⟨ref, href⟩ := hall s (by simp)
    have hall' : allParse parse rest := fun t ht => hall t (by simp [ht])
    by_cases hmem : ref.path ∈ fetched
    · have hres := ih fetched acc hall' hinv hnd
      have heq : httpScan parse (s :: rest) fetched acc =
          httpScan parse rest fetched acc := by
        simp [httpScan, href, hmem]
      rw [heq]
      refine ⟨hres.1, hres.2.1, fun p => ?_⟩
      rw [hres.2.2 p]
      constructor
      · rintro (hp | ⟨t, ht, rt, hrt, hrp⟩)
        · exact Or.inl hp
        · exact Or.inr ⟨t, by simp [ht], rt, hrt, hrp⟩
      · rintro (hp | ⟨t, ht, rt, hrt, hrp⟩)
        · exact Or.inl hp
        · rcases List.mem_cons.mp ht with rfl | ht
          · rw [href] at hrt
            cases hrt
            exact Or.inl ((hinv p).mp (hrp ▸ hmem))
          · exact Or.inr ⟨t, ht, rt, hrt, hrp⟩
    · have hmem' : ref.path ∉ acc.map IconTask.path := fun hk => hmem ((hinv _).mpr hk)
      have hinv' : ∀ p, p ∈ ref.path :: fetched ↔
          p ∈ (acc ++ [(⟨ref.path, ref⟩ : IconTask)]).map IconTask.path := by
        intro p
        have hfp := hinv p
        simp only [List.mem_cons, List.map_append, List.mem_append, List.map_cons,
          List.map_nil, List.mem_singleton] at hfp ⊢
        tauto
      have hnd' : ((acc ++ [(⟨ref.path, ref⟩ : IconTask)]).map IconTask.path).Nodup := by
        simp only [List.map_append, List.map_cons, List.map_nil]
        rw [List.nodup_append]
        refine ⟨hnd, by simp, fun a ha hb => ?_⟩
        simp at hb
        subst hb
        exact hmem' ha
      have hres := ih (ref.path :: fetched) (acc ++ [⟨ref.path, ref⟩]) hall' hinv' hnd'
      have heq : httpScan parse (s :: rest) fetched acc =
          httpScan parse rest (ref.path :: fetched) (acc ++ [⟨ref.path, ref⟩]) := by
        simp [httpScan, href, hmem]
      rw [heq]
      have hsplit : ∀ p, p ∈ (acc ++ [(⟨ref.path, ref⟩ : IconTask)]).map IconTask.path ↔
          p ∈ acc.map IconTask.path ∨ p = ref.path := by
        intro p
        simp
      refine ⟨hres.1, hres.2.1, fun p => ?_⟩
      rw [hres.2.2 p]
      constructor
      · rintro (hp | ⟨t, ht, rt, hrt, hrp⟩)
        · rcases (hsplit p).mp hp with hp | rfl
          · exact Or.inl hp
          · exact Or.inr ⟨s, by simp, ref, href, rfl⟩
        · exact Or.inr ⟨t, by simp [ht], rt, hrt, hrp⟩
      · rintro (hp | ⟨t, ht, rt, hrt, hrp⟩)
        · exact Or.inl ((hsplit p).mpr (Or.inl hp))
        · rcases List.mem_cons.mp ht with rfl | ht
          · rw [href] at hrt
            cases hrt
            exact Or.inl ((hsplit p).mpr (Or.inr hrp.symm))
          · exact Or.inr ⟨t, ht, rt, hrt, hrp⟩

/-- Specification of the link loop on all-parseable input: success, keys
free of duplicates covering exactly the parsed paths, lookups of already
fetched paths untouched, and each new path mapped to the SVG tag built
from its first occurrence's reference. -/
theorem linkLoop_spec (l : LinkFetcher) (parse : ParseFn) (svcs : List ServiceSpec) :
    ∀ (fetched : List String) (icons : List (String × String)), allParse parse svcs →
    (∀ p, p ∈ fetched ↔ p ∈ mapKeys icons) →
    (mapKeys icons).Nodup →
    ∃ m, linkLoop l parse svcs fetched icons = .ok m ∧
      (mapKeys m).Nodup ∧
      (∀ p, p ∈ mapKeys m ↔ p ∈ mapKeys icons ∨
        ∃ s ∈ svcs, ∃ ref, parse s.Charm = .ok ref ∧ ref.path = p) ∧
      (∀ p, p ∈ fetched → m.lookup p = icons.lookup p) ∧
      (∀ p, p ∉ fetched → m.lookup p =
        (firstRefWithPath parse svcs p).map
          (fun ref => svgIconTag (escapeString (l.IconURL ref)))) := by
  induction svcs with
  | nil =>
    intro fetched icons _ hinv hnd
    refine ⟨icons, rfl, hnd, fun p => by simp, fun p _ => rfl, fun p hp => ?_⟩
    simp only [firstRefWithPath, Option.map_none]
    exact lookup_eq_none_of_not_mem_keys icons p (fun hk => hp ((hinv p).mpr hk))
  | cons s rest ih =>
    intro fetched icons hall hinv hnd
    obtain ⟨ref, href⟩ := hall s (by simp)
    have hall' : allParse parse rest := fun t ht => hall t (by simp [ht])
    by_cases hmem : ref.path ∈ fetched
    · obtain ⟨m, hm, hndm, hiff, hstable, hnew⟩ := ih fetched icons hall' hinv hnd
      have heq : linkLoop l parse (s :: rest) fetched icons =
          linkLoop l parse rest fetched icons := by
        simp [linkLoop, href, hmem]
      refine ⟨m, heq ▸ hm, hndm, fun p => ?_, hstable, fun p hp => ?_⟩
      · rw [hiff p]
        constructor
        · rintro (hp | ⟨t, ht, rt, hrt, hrp⟩)
          · exact Or.inl hp
          · exact Or.inr ⟨t, by simp [ht], rt, hrt, hrp⟩
        · rintro (hp | ⟨t, ht, rt, hrt, hrp⟩)
          · exact Or.inl hp
          · rcases List.mem_cons.mp ht with rfl | ht
            · rw [href] at hrt
              cases hrt
              exact Or.inl ((hinv p).mp (hrp ▸ hmem))
            · exact Or.inr ⟨t, ht, rt, hrt, hrp⟩
      · rw [hnew p hp]
        have hne : ¬ref.path = p := fun h => hp (h ▸ hmem)
        simp [firstRefWithPath, href, hne]
    · have hmem' : ref.path ∉ mapKeys icons := fun hk => hmem ((hinv _).mpr hk)
      have hinv' : ∀ p, p ∈ ref.path :: fetched ↔
          p ∈ mapKeys (icons ++ [(ref.path, svgIconTag (escapeString (l.IconURL ref)))]) := by
        intro p
        have hfp := hinv p
        simp only [List.mem_cons, mapKeys, List.map_append, List.mem_append,
          List.map_cons, List.map_nil, List.mem_singleton] at hfp ⊢
        tauto
      have hnd' : (mapKeys
          (icons ++ [(ref.path, svgIconTag (escapeString (l.IconURL ref)))])).Nodup := by
        simp only [mapKeys, List.map_append, List.map_cons, List.map_nil]
        rw [List.nodup_append]
        refine ⟨hnd, by simp, fun a ha hb => ?_⟩
        simp at hb
        subst hb
        exact hmem' ha
      obtain ⟨m, hm, hndm, hiff, hstable, hnew⟩ := ih (ref.path :: fetched)
        (icons ++ [(ref.path, svgIconTag (escapeString (l.IconURL ref)))]) hall' hinv' hnd'
      have heq : linkLoop l parse (s :: rest) fetched icons =
          linkLoop l parse rest (ref.path :: fetched)
            (icons ++ [(ref.path, svgIconTag (escapeString (l.IconURL ref)))]) := by
        simp [linkLoop, href, hmem]
      have hsplit : ∀ p,
          p ∈ mapKeys (icons ++ [(ref.path, svgIconTag (escapeString (l.IconURL ref)))]) ↔
          p ∈ mapKeys icons ∨ p = ref.path := by
        intro p
        simp [mapKeys]
      refine ⟨m, heq ▸ hm, hndm, fun p => ?_, fun p hp => ?_, fun p hp => ?_⟩
      · rw [hiff p]
        constructor
        · rintro (hp | ⟨t, ht, rt, hrt, hrp⟩)
          · rcases (hsplit p).mp hp with hp | rfl
            · exact Or.inl hp
            · exact Or.inr ⟨s, by simp, ref, href, rfl⟩
          · exact Or.inr ⟨t, by simp [ht], rt, hrt, hrp⟩
        · rintro (hp | ⟨t, ht, rt, hrt, hrp⟩)
          · exact Or.inl ((hsplit p).mpr (Or.inl hp))
          · rcases List.mem_cons.mp ht with rfl | ht
            · rw [href] at hrt
              cases hrt
              exact Or.inl ((hsplit p).mpr (Or.inr hrp.symm))
            · exact Or.inr ⟨t, ht, rt, hrt, hrp⟩
      · have hne : ¬p = ref.path := fun h => hmem (h ▸ hp)
        rw [hstable p (List.mem_cons_of_mem _ hp), lookup_append]
        cases hl : icons.lookup p with
        | some v => simp [hl]
        | none => simp [hl, lookup_cons, hne]
      · by_cases hpe : p = ref.path
        · subst hpe
          rw [hstable ref.path (List.mem_cons_self ref.path fetched), lookup_append,
            lookup_eq_none_of_not_mem_keys icons ref.path hmem']
          simp [lookup_cons, firstRefWithPath, href]
        · have hp' : p ∉ ref.path :: fetched := by
            intro hc
            rcases List.mem_cons.mp hc with h | hc
            · exact hpe h
            · exact hp hc
          rw [hnew p hp']
          have hne : ¬ref.path = p := fun h => hpe h.symm
          simp [firstRefWithPath, href, hne]

/-- A service that parses to `ref` guarantees a first occurrence for
`ref.path`, itself parsed to a reference with that path. -/
theorem firstRefWithPath_mem (parse : ParseFn) (svcs : List ServiceSpec)
    (s : ServiceSpec) (ref : Reference) (hs : s ∈ svcs)
    (hp : parse s.Charm = .ok ref) :
    ∃ refF, firstRefWithPath parse svcs ref.path = some refF ∧
      refF.path = ref.path := by
  induction svcs with
  | nil => cases hs
  | cons t rest ih =>
    rcases List.mem_cons.mp hs with rfl | hmem
    · refine ⟨ref, ?_, rfl⟩
      simp [firstRefWithPath, hp]
    · cases hpt : parse t.Charm with
      | error e =>
        simpa [firstRefWithPath, hpt] using ih hmem
      | ok rt =>
        by_cases hq : rt.path = ref.path
        · exact ⟨rt, by simp [firstRefWithPath, hpt, hq], hq⟩
        · simpa [firstRefWithPath, hpt, hq] using ih hmem

/-- Claim C1: on a bundle whose references all parse (and, for the HTTP
fetcher, whose fetches all succeed), both fetchers return a map whose key
set is exactly the set of distinct parsed paths of the bundle, with no
duplicate keys, and the HTTP fetcher submits exactly one fetch task per
distinct path. -/
theorem fetchIcons_allSuccess_keys (l : LinkFetcher) (h : HTTPFetcher) (d : HTTPClient)
    (parse : ParseFn) (b : BundleData)
    (hall : allParse parse b.Services)
    (hfetch : ∀ t ∈ (h.FetchIconsRun d parse b).submitted,
      ∃ icon, h.fetchIcon (h.IconURL t.charmId)
        (h.FetchIconsRun d parse b).clientUsed = .ok icon) :
    (∃ m, l.FetchIcons parse b = .ok m ∧ (mapKeys m).Nodup ∧
      ∀ p, p ∈ mapKeys m ↔
        ∃ s ∈ b.Services, ∃ ref, parse s.Charm = .ok ref ∧ ref.path = p) ∧
    (∃ m, h.FetchIcons d parse b = .ok m ∧ (mapKeys m).Nodup ∧
      (∀ p, p ∈ mapKeys m ↔
        ∃ s ∈ b.Services, ∃ ref, parse s.Charm = .ok ref ∧ ref.path = p) ∧
      mapKeys m = (h.FetchIconsRun d parse b).submitted.map IconTask.path ∧
      ((h.FetchIconsRun d parse b).submitted.map IconTask.path).Nodup) := by
  constructor
  · obtain ⟨m, hm, hnd, hiff, -, -⟩ := linkLoop_spec l parse b.Services [] [] hall
      (by intro p; simp [mapKeys]) (by simp [mapKeys])
    refine ⟨m, hm, hnd, fun p => ?_⟩
    rw [hiff p]
    simp [mapKeys]
  · obtain ⟨hnone, hndt, hifft⟩ := httpScan_spec parse b.Services [] [] hall
      (by intro p; simp) (by simp)
    obtain ⟨m, hrun, hkeys⟩ := runAll_ok h (h.FetchIconsRun d parse b).clientUsed
      (h.FetchIconsRun d parse b).submitted hfetch
    have hres : h.FetchIcons d parse b = .ok m := by
      show (h.FetchIconsRun d parse b).result = .ok m
      rw [fetchIconsRun_result]
      have hperr : (h.FetchIconsRun d parse b).parseError = none := hnone
      rw [hperr]
      exact hrun
    refine ⟨m, hres, ?_, ?_, hkeys, ?_⟩
    · rw [hkeys]
      exact hndt
    · intro p
      rw [hkeys]
      have h2 := hifft p
      simp only [List.map_nil, List.not_mem_nil, false_or] at h2
      exact h2
    · exact hndt

/-- Witness for C1: a concrete bundle with a repeated reference yields
exactly one key per distinct path. -/
theorem fetchIcons_allSuccess_keys_witness :
    ∃ m, hSample.FetchIcons okClient charmParse
        ⟨[⟨"cs:wordpress"⟩, ⟨"cs:wordpress"⟩, ⟨"mysql"⟩]⟩ = .ok m ∧
      mapKeys m = ["wordpress", "mysql"] := by
  obtain ⟨-, m, hok, -, -, hkeys, -⟩ :=
    fetchIcons_allSuccess_keys lSample hSample okClient charmParse
      ⟨[⟨"cs:wordpress"⟩, ⟨"cs:wordpress"⟩, ⟨"mysql"⟩]⟩
      (by
        intro s hs
        rcases List.mem_cons.mp hs with rfl | hs
        · exact ⟨⟨"wordpress", "cs"⟩, by decide⟩
        rcases List.mem_cons.mp hs with rfl | hs
        · exact ⟨⟨"wordpress", "cs"⟩, by decide⟩
        rcases List.mem_cons.mp hs with rfl | hs
        · exact ⟨⟨"mysql", ""⟩, by decide⟩
        cases hs)
      (by
        intro t ht
        have hsub : (hSample.FetchIconsRun okClient charmParse
            ⟨[⟨"cs:wordpress"⟩, ⟨"cs:wordpress"⟩, ⟨"mysql"⟩]⟩).submitted =
            [⟨"wordpress", ⟨"wordpress", "cs"⟩⟩, ⟨"mysql", ⟨"mysql", ""⟩⟩] := by decide
        rw [hsub] at ht
        rcases List.mem_cons.mp ht with rfl | ht
        · exact ⟨"icon:https://example.com/wordpress/icon.svg", by decide⟩
        rcases List.mem_cons.mp ht with rfl | ht
        · exact ⟨"icon:https://example.com/mysql/icon.svg", by decide⟩
        cases ht)
  refine ⟨m, hok, ?_⟩
  rw [hkeys]
  decide

/-- Claim C7: for every successfully parsed identifier, the link fetcher
maps its path to the fixed-structure SVG tag embedding the XML-escaped
`IconURL` output for that identifier (represented by its first parsed
occurrence), with a single entry per identifier; the reserved characters
`<`, `&`, `"` are escaped as entities. -/
theorem linkFetcher_content_escaped (l : LinkFetcher) (parse : ParseFn) (b : BundleData)
    (hall : allParse parse b.Services) :
    (∃ m, l.FetchIcons parse b = .ok m ∧ (mapKeys m).Nodup ∧
      ∀ s ∈ b.Services, ∀ ref, parse s.Charm = .ok ref →
        ∃ refF, firstRefWithPath parse b.Services ref.path = some refF ∧
          refF.path = ref.path ∧
          m.lookup ref.path = some (svgIconTag (escapeString (l.IconURL refF)))) ∧
    escapeString "<" = "&lt;" ∧ escapeString "&" = "&amp;" ∧
    escapeString "\"" = "&#34;" := by
  refine ⟨?_, by decide, by decide, by decide⟩
  obtain ⟨m, hm, hnd, -, -, hnew⟩ := linkLoop_spec l parse b.Services [] [] hall
    (by intro p; simp [mapKeys]) (by simp [mapKeys])
  refine ⟨m, hm, hnd, fun s hs ref href => ?_⟩
  obtain ⟨refF, hF, hFp⟩ := firstRefWithPath_mem parse b.Services s ref hs href
  refine ⟨refF, hF, hFp, ?_⟩
  rw [hnew ref.path (by simp), hF]
  rfl

/-- Witness for C7: the duplicate-raw-reference bundle yields the exact
escaped SVG tag for the shared identifier. -/
theorem linkFetcher_content_escaped_witness :
    ∃ m, lSample.FetchIcons charmParse ⟨[⟨"wordpress"⟩, ⟨"wordpress"⟩]⟩ = .ok m ∧
      m.lookup "wordpress" =
        some (svgIconTag (escapeString (lSample.IconURL ⟨"wordpress", ""⟩))) := by
  obtain ⟨⟨m, hok, -, hcontent⟩, -, -, -⟩ :=
    linkFetcher_content_escaped lSample charmParse ⟨[⟨"wordpress"⟩, ⟨"wordpress"⟩]⟩
      (by
        intro s hs
        rcases List.mem_cons.mp hs with rfl | hs
        · exact ⟨⟨"wordpress", ""⟩, by decide⟩
        rcases List.mem_cons.mp hs with rfl | hs
        · exact ⟨⟨"wordpress", ""⟩, by decide⟩
        cases hs)
  obtain ⟨refF, hF, -, hlk⟩ := hcontent ⟨"wordpress"⟩ (by simp) ⟨"wordpress", ""⟩
    (by decide)
  have hFc : firstRefWithPath charmParse [⟨"wordpress"⟩, ⟨"wordpress"⟩] "wordpress" =
      some ⟨"wordpress", ""⟩ := by decide
  rw [hFc] at hF
  cases hF
  exact ⟨m, hok, hlk⟩

/-- Claim C9: deduplication is keyed on the parsed path — two textually
distinct raw references whose parsed references share a path produce a
single map entry under that path built from the first occurrence, and the
HTTP fetcher submits a single task carrying the first occurrence's
reference. -/
theorem dedup_by_path_first_wins (l : LinkFetcher) (h : HTTPFetcher) (d : HTTPClient)
    (parse : ParseFn) (raw₁ raw₂ : String) (r₁ r₂ : Reference)
    (hne : raw₁ ≠ raw₂) (h₁ : parse raw₁ = .ok r₁) (h₂ : parse raw₂ = .ok r₂)
    (hpath : r₂.path = r₁.path) :
    l.FetchIcons parse ⟨[⟨raw₁⟩, ⟨raw₂⟩]⟩ =
      .ok [(r₁.path, svgIconTag (escapeString (l.IconURL r₁)))] ∧
    (h.FetchIconsRun d parse ⟨[⟨raw₁⟩, ⟨raw₂⟩]⟩).submitted = [⟨r₁.path, r₁⟩] := by
  constructor
  · show linkLoop l parse [⟨raw₁⟩, ⟨raw₂⟩] [] [] = _
    simp [linkLoop, h₁, h₂, hpath]
  · show (httpScan parse [⟨raw₁⟩, ⟨raw₂⟩] [] []).1 = _
    simp [httpScan, h₁, h₂, hpath]

/-- Witness for C9: `cs:wordpress` and `wordpress` differ textually, parse
to different references with the same path, and collapse into one entry
and one task built from the first occurrence. -/
theorem dedup_by_path_first_wins_witness :
    lSample.FetchIcons charmParse ⟨[⟨"cs:wordpress"⟩, ⟨"wordpress"⟩]⟩ =
      .ok [("wordpress", svgIconTag (escapeString (lSample.IconURL ⟨"wordpress", "cs"⟩)))] ∧
    (hSample.FetchIconsRun okClient charmParse
      ⟨[⟨"cs:wordpress"⟩, ⟨"wordpress"⟩]⟩).submitted =
      [⟨"wordpress", ⟨"wordpress", "cs"⟩⟩] :=
  dedup_by_path_first_wins lSample hSample okClient charmParse "cs:wordpress" "wordpress"
    ⟨"wordpress", "cs"⟩ ⟨"wordpress", ""⟩ (by decide) (by decide) (by decide) rfl

end Jujusvg
